import Mathlib

/-!
Verification development for the transaction-center fraud-detection core.

The Python sources under src/backend are embedded shallowly:
numpy arrays become lists or Mathlib matrices, floating point numbers
become exact rationals or reals, and calls that raise exceptions are
modelled as Option-valued functions returning none.  The numpy library
functions used by the code are embedded with their documented exact
semantics: numpy arange with a nonzero step yields start, start + step,
... strictly below stop, and raises ZeroDivisionError on a zero step;
numpy percentile uses the default linear-interpolation method at virtual
index q / 100 * (n - 1); numpy cov divides by N - 1; scipy linalg inv
raises LinAlgError on an exactly singular matrix.
-/

set_option maxHeartbeats 1000000

namespace TransactionCenter

/-! ## Generic list and numpy helpers -/

/-- The last `n` elements of a list (a full bounded deque after eviction). -/
def lastN {α : Type} (n : ℕ) (l : List α) : List α :=
  l.drop (l.length - n)

/-- One append to a `collections.deque` with `maxlen = n`: the new element is
appended on the right and, if the capacity is exceeded, the oldest element is
evicted from the left. -/
def appendBounded {α : Type} (n : ℕ) (l : List α) (x : α) : List α :=
  let l2 := l ++ [x]
  if n < l2.length then l2.drop (l2.length - n) else l2

/-- Insert an element into a sorted list (helper for sorting). -/
def insertSorted {α : Type} [LinearOrder α] (x : α) : List α → List α
  | [] => [x]
  | y :: ys => if x ≤ y then x :: y :: ys else y :: insertSorted x ys

/-- Ascending insertion sort, the sorting step inside numpy percentile. -/
def sortAsc {α : Type} [LinearOrder α] (l : List α) : List α :=
  l.foldr insertSorted []

/-- numpy percentile with the default linear interpolation method: on the
sorted data of length n, the virtual index is q / 100 * (n - 1) and the result
interpolates linearly between the two neighbouring order statistics. -/
def percentile {α : Type} [LinearOrderedField α] [FloorRing α]
    (l : List α) (q : α) : α :=
  let s := sortAsc l
  let pos := q * (((s.length - 1 : ℕ) : α)) / 100
  let i := (⌊pos⌋).toNat
  let frac := pos - (i : α)
  match s[i]?, s[i + 1]? with
  | some a, some b => a + frac * (b - a)
  | some a, none => a
  | none, _ => 0

/-- numpy max of the nonempty array `x :: l`. -/
def maxList {α : Type} [LinearOrder α] (x : α) (l : List α) : α :=
  l.foldl max x

/-- numpy min of the nonempty array `x :: l`. -/
def minList {α : Type} [LinearOrder α] (x : α) (l : List α) : α :=
  l.foldl min x

/-! ## anomaly_detection.py: confusion counts, metrics, threshold search -/

variable {α : Type}

/-- Embeds `check_predictions` (anomaly_detection.py lines 67-88): confusion-matrix
counts (false_positives, false_negatives, true_positives) of binary
predictions against ground-truth labels. -/
def check_predictions (predictions truths : List ℕ) : ℕ × ℕ × ℕ :=
  let pairs := predictions.zip truths
  let false_positives := (pairs.filter (fun pt => pt.1 == 1 && pt.2 == 0)).length
  let false_negatives := (pairs.filter (fun pt => pt.1 == 0 && pt.2 == 1)).length
  let true_positives := (pairs.filter (fun pt => pt.1 == 1 && pt.2 == 1)).length
  (false_positives, false_negatives, true_positives)

/-- Embeds `metrics` (anomaly_detection.py lines 91-123): precision, recall and F1
with the three division-by-zero guards from the source. -/
def metrics [LinearOrderedField α] (tp fp fn : ℕ) : α × α × α :=
  let precisionv : α := if tp + fp = 0 then 0 else (tp : α) / ((tp : α) + (fp : α))
  let recallv : α := if tp + fn = 0 then 0 else (tp : α) / ((tp : α) + (fn : α))
  let F1 : α := if precisionv + recallv = 0 then 0
    else 2 * (precisionv * recallv) / (precisionv + recallv)
  (precisionv, recallv, F1)

/-- Embeds `(probabilities < epsilon).astype(int)` (anomaly_detection.py line 159). -/
def predsAt [LinearOrderedField α] (probs : List α) (eps : α) : List ℕ :=
  probs.map (fun p => if p < eps then 1 else 0)

/-- The F1 value the search loop computes at candidate threshold `eps`. -/
def F1at [LinearOrderedField α] (truths : List ℕ) (probs : List α) (eps : α) : α :=
  let c := check_predictions (predsAt probs eps) truths
  (metrics (α := α) c.2.2 c.1 c.2.1).2.2

/-- The precision at candidate threshold `eps`. -/
def Pat [LinearOrderedField α] (truths : List ℕ) (probs : List α) (eps : α) : α :=
  let c := check_predictions (predsAt probs eps) truths
  (metrics (α := α) c.2.2 c.1 c.2.1).1

/-- The recall at candidate threshold `eps`. -/
def Rat [LinearOrderedField α] (truths : List ℕ) (probs : List α) (eps : α) : α :=
  let c := check_predictions (predsAt probs eps) truths
  (metrics (α := α) c.2.2 c.1 c.2.1).2.1

/-- The body of the loop in `optimal_threshold` (anomaly_detection.py lines
157-174), acting on the accumulator
(best_epsilon, best_F1, associated_precision, associated_recall). -/
def threshStep [LinearOrderedField α] (truths : List ℕ) (probs : List α)
    (acc : α × α × α × α) (eps : α) : α × α × α × α :=
  let c := check_predictions (predsAt probs eps) truths
  if c.2.2 + c.1 + c.2.1 = 0 then acc
  else
    let m := metrics (α := α) c.2.2 c.1 c.2.1
    if acc.2.1 < m.2.2 then (eps, m.2.2, m.1, m.2.1) else acc

/-- The candidate grid `np.arange(mn, mx, (mx - mn) / 1000)` in exact
arithmetic (for mn < mx it is exactly the 1000 points mn + k * step). -/
def epsGrid [LinearOrderedField α] (mn mx : α) : List α :=
  (List.range 1000).map (fun k : ℕ => mn + (k : α) * ((mx - mn) / 1000))

/-- Embeds `optimal_threshold` (anomaly_detection.py lines 126-176).  An empty score
array makes numpy max raise, and identical scores make the step size zero so
numpy arange raises ZeroDivisionError; both failures are modelled as none. -/
def optimal_threshold [LinearOrderedField α] (truths : List ℕ)
    (probabilities : List α) : Option (α × α × α × α) :=
  match probabilities with
  | [] => none
  | p :: ps =>
    let mx := maxList p ps
    let mn := minList p ps
    if mx = mn then none
    else some ((epsGrid mn mx).foldl (threshStep truths probabilities) (0, 0, 0, 0))

/-! ## adaptive_detector.py: AdaptiveFraudDetector -/

/-- The mutable state of `AdaptiveFraudDetector` (adaptive_detector.py lines
21-43).  The base detector is represented only through its threshold (the one
field the wrapper reads at construction); probabilities produced by the base
detector are passed to the step function as inputs. -/
structure AdaptiveFraudDetector (α : Type) where
  calibration_size : ℕ
  target_fraud_rate : α
  calibration_probs : List α
  is_calibrated : Bool
  adaptive_threshold : α
  recent_probs : List α
  recent_predictions : List ℕ
  total_processed : ℕ
  total_fraud : ℕ

/-- Embeds `__init__` with the default arguments `calibration_size = 50`,
`target_fraud_rate = 0.15`, starting from the base detector threshold. -/
def AdaptiveFraudDetector.init [LinearOrderedField α] (base_threshold : α) :
    AdaptiveFraudDetector α :=
  { calibration_size := 50
    target_fraud_rate := 3 / 20
    calibration_probs := []
    is_calibrated := false
    adaptive_threshold := base_threshold
    recent_probs := []
    recent_predictions := []
    total_processed := 0
    total_fraud := 0 }

/-- Embeds `_calibrate` (adaptive_detector.py lines 90-99): set the adaptive
threshold to the (target_fraud_rate * 100)-th percentile of the calibration
buffer and mark the detector calibrated. -/
def calibrate [LinearOrderedField α] [FloorRing α]
    (s : AdaptiveFraudDetector α) : AdaptiveFraudDetector α :=
  { s with
    adaptive_threshold := percentile s.calibration_probs (s.target_fraud_rate * 100)
    is_calibrated := true }

/-- Embeds `_recalibrate` (adaptive_detector.py lines 110-126): when the rolling
window holds at least 50 samples and the empirical flag rate is more than 0.1
away from the target rate, blend the target-rate percentile of the rolling
scores into the threshold with weights 0.7 / 0.3. -/
def recalibrate [LinearOrderedField α] [FloorRing α]
    (s : AdaptiveFraudDetector α) : AdaptiveFraudDetector α :=
  if s.recent_probs.length < 50 then s
  else
    let current_fraud_rate : α :=
      (s.recent_predictions.sum : α) / (s.recent_predictions.length : α)
    if 1 / 10 < |current_fraud_rate - s.target_fraud_rate| then
      { s with
        adaptive_threshold := 7 / 10 * s.adaptive_threshold +
          3 / 10 * percentile s.recent_probs (s.target_fraud_rate * 100) }
    else s

/-- The calibration block of `predict_with_confidence` (adaptive_detector.py
lines 59-65): while uncalibrated, append every probability to the bounded
calibration buffer and calibrate once it has reached capacity. -/
def calibPhase [LinearOrderedField α] [FloorRing α]
    (s : AdaptiveFraudDetector α) (probabilities : List α) :
    AdaptiveFraudDetector α :=
  if s.is_calibrated then s
  else
    let s1 := { s with
      calibration_probs :=
        probabilities.foldl (appendBounded s.calibration_size) s.calibration_probs }
    if s1.calibration_size ≤ s1.calibration_probs.length then calibrate s1 else s1

/-- The statistics and rolling-window block of `predict_with_confidence`
(adaptive_detector.py lines 70-80): adaptive predictions from the current
threshold, counter updates, and the two bounded windows of capacity 100. -/
def updateStats [LinearOrderedField α] (s1 : AdaptiveFraudDetector α)
    (probabilities : List α) : AdaptiveFraudDetector α :=
  let adaptive_predictions :=
    probabilities.map (fun p => if p < s1.adaptive_threshold then (1 : ℕ) else 0)
  { s1 with
    total_processed := s1.total_processed + probabilities.length
    total_fraud := s1.total_fraud + adaptive_predictions.sum
    recent_probs := probabilities.foldl (appendBounded 100) s1.recent_probs
    recent_predictions := adaptive_predictions.foldl (appendBounded 100) s1.recent_predictions }

/-- The state transition of `predict_with_confidence` (adaptive_detector.py
lines 45-88): calibration block, statistics update, then the periodic
recalibration check at every 100th processed item while calibrated.  The
returned prediction/confidence arrays are pure functions of the inputs and
this state and do not feed back into it. -/
def predictStep [LinearOrderedField α] [FloorRing α]
    (s : AdaptiveFraudDetector α) (probabilities : List α) :
    AdaptiveFraudDetector α :=
  let s2 := updateStats (calibPhase s probabilities) probabilities
  if s2.total_processed % 100 = 0 ∧ s2.is_calibrated = true then recalibrate s2 else s2

/-- Embeds `np.clip x lo hi` as used in `_calculate_confidence`. -/
noncomputable def npClip (x lo hi : ℝ) : ℝ := min hi (max x lo)

/-- Embeds `_calculate_confidence` (adaptive_detector.py lines 128-146) for one
probability: the absolute base-10 log distance to the threshold (both guarded
by epsilon = 1e-20) divided by 2 and clipped to the unit interval. -/
noncomputable def calculate_confidence (threshold probability : ℝ) : ℝ :=
  let distance :=
    |Real.logb 10 (probability + 1 / 10 ^ 20) - Real.logb 10 (threshold + 1 / 10 ^ 20)|
  npClip (distance / 2) 0 1

/-- Embeds `should_flag` (adaptive_detector.py lines 160-176): flag only when the
probability is strictly below the adaptive threshold and the confidence
reaches the caller-supplied gate (default 0.3). -/
def should_flag [LinearOrderedField α] (s : AdaptiveFraudDetector α)
    (probability confidence min_confidence : α) : Bool :=
  decide (probability < s.adaptive_threshold) && decide (min_confidence ≤ confidence)

/-! ## anomaly_detection.py: Gaussian density model -/

open scoped BigOperators

/-- Embeds `estimate_gaussian` (anomaly_detection.py lines 8-27): column means and
the unbiased sample covariance matrix (numpy cov with rowvar = False divides
by m - 1). -/
noncomputable def estimate_gaussian {m n : ℕ} (X : Matrix (Fin m) (Fin n) ℝ) :
    (Fin n → ℝ) × Matrix (Fin n) (Fin n) ℝ :=
  let mean_values : Fin n → ℝ := fun j => (∑ i, X i j) / m
  (mean_values,
    Matrix.of fun j k =>
      (∑ i, (X i j - mean_values j) * (X i k - mean_values k)) / ((m : ℝ) - 1))

/-- Embeds `multivariate_gaussian` (anomaly_detection.py lines 30-64): the density of
each row under the Gaussian with the given mean and covariance.  The source
inverts the covariance matrix as given, with no regularization; scipy inv
raises LinAlgError on a singular matrix, modelled as none. -/
noncomputable def multivariate_gaussian {m n : ℕ} (X : Matrix (Fin m) (Fin n) ℝ)
    (mean_values : Fin n → ℝ) (covariance_matrix : Matrix (Fin n) (Fin n) ℝ) :
    Option (Fin m → ℝ) :=
  if covariance_matrix.det = 0 then none
  else
    let inverse_covariance := covariance_matrix⁻¹
    let difference : Matrix (Fin m) (Fin n) ℝ :=
      Matrix.of fun i j => X i j - mean_values j
    let exponent : Fin m → ℝ :=
      fun i => -(1 / 2) * ∑ j, (difference * inverse_covariance) i j * difference i j
    let normalizer := 1 / Real.sqrt ((2 * Real.pi) ^ n * covariance_matrix.det)
    some fun i => normalizer * Real.exp (exponent i)

/-! ## fraud_detector.py: FraudDetector.predict -/

/-- A numeric pandas frame: an ordered association list of named columns, a
cell being none when it holds NaN. -/
abbrev DfN : Type := List (String × List (Option ℝ))

/-- Column lookup by name. -/
def lookupCol (df : DfN) (c : String) : Option (List (Option ℝ)) :=
  (List.find? (fun p => p.1 == c) df).map Prod.snd

/-- The trained state of `FraudDetector` (fraud_detector.py lines 32-48):
the stored column order, normalization statistics, Gaussian parameters and
threshold fixed at training time. -/
structure FraudDetector (n : ℕ) where
  training_columns : Fin n → String
  normalization_mean : Fin n → ℝ
  normalization_std : Fin n → ℝ
  mean_values : Fin n → ℝ
  covariance_matrix : Matrix (Fin n) (Fin n) ℝ
  threshold : ℝ
  is_trained : Bool

/-- Embeds fraud_detector.py lines 161-164: every training-time column absent from
the incoming frame is appended filled with zeros. -/
def fillMissing (tc : List String) (df : DfN) (m : ℕ) : DfN :=
  df ++ (tc.filter (fun c => (lookupCol df c).isNone)).map
    (fun c => (c, List.replicate m (some (0 : ℝ))))

/-- Embeds fraud_detector.py lines 166-170: numeric columns of the incoming frame
that are neither training columns nor the label column are dropped. -/
def dropExtra (tc : List String) (cols0 : List String) (df : DfN) : DfN :=
  let extra := cols0.filter (fun c => !tc.contains c && c != "is_fraud")
  df.filter (fun p => !extra.contains p.1)

/-- numpy nanmean of one column: the mean of the non-NaN cells, NaN (none)
when every cell is NaN. -/
noncomputable def nanmean (col : List (Option ℝ)) : Option ℝ :=
  let vals := col.filterMap id
  if vals.length = 0 then none else some (vals.sum / vals.length)

/-- Embeds fraud_detector.py lines 176-179: NaN cells are replaced by the column
nanmean (staying NaN when the whole column is NaN). -/
noncomputable def fillNanWithMean (col : List (Option ℝ)) : List (Option ℝ) :=
  let cm := nanmean col
  col.map (fun v => match v with | some x => some x | none => cm)

/-- One column through lines 176-200 of fraud_detector.py: NaN fill, z-score
normalization with the stored statistics, then nan_to_num sending any
remaining non-finite value to 0. -/
noncomputable def processedColumn (nm ns : ℝ) (col : List (Option ℝ)) : List ℝ :=
  (((fillNanWithMean col).map (Option.map (fun x => (x - nm) / ns))).map
    (fun v => v.getD 0))

/-- The frame after the column-alignment steps of `predict`
(fraud_detector.py lines 153-170). -/
def alignedFrame {n : ℕ} (d : FraudDetector n) (df : DfN) (m : ℕ) : DfN :=
  let cols0 := df.map Prod.fst
  let tc := List.ofFn d.training_columns
  dropExtra tc cols0 (fillMissing tc df m)

/-- The normalized feature matrix `X_normalized` of `predict`
(fraud_detector.py lines 172-200), reading the aligned frame in the stored
training-column order.  A pandas frame holds exactly m cells per column; the
getD defaults encode that invariant. -/
noncomputable def alignedMatrix {n : ℕ} (d : FraudDetector n) (df : DfN) (m : ℕ) :
    Matrix (Fin m) (Fin n) ℝ :=
  Matrix.of fun r j =>
    (processedColumn (d.normalization_mean j) (d.normalization_std j)
      ((lookupCol (alignedFrame d df m) (d.training_columns j)).getD
        (List.replicate m (some 0)))).getD r 0

/-- Embeds `FraudDetector.predict` (fraud_detector.py lines 134-213) restricted to
its score output: none when the model is untrained (the source raises), else
the Gaussian densities of the aligned, normalized rows.  The binary decisions
of line 211 are `decisions` below. -/
noncomputable def FraudDetector.predict {n : ℕ} (d : FraudDetector n)
    (df : DfN) (m : ℕ) : Option (Fin m → ℝ) :=
  if d.is_trained = false then none
  else multivariate_gaussian (alignedMatrix d df m) d.mean_values d.covariance_matrix

/-- Embeds `(probabilities < self.threshold).astype(int)` (fraud_detector.py line
211): the per-row binary decision. -/
def decisions {m : ℕ} (probs : Fin m → ℝ) (t : ℝ) : Fin m → Prop :=
  fun r => probs r < t

/-- The identifier columns `encode_categorical_features` removes instead of
encoding (feature_engineering.py lines 63-64). -/
def skip_columns : List String :=
  ["transaction_id", "trans_num", "ssn", "cc_num", "acct_num",
   "first", "last", "street", "merchant"]

/-- One cell through the fitted LabelEncoder at inference time
(feature_engineering.py lines 90-96): missing cells become MISSING, values
outside the fitted vocabulary become UNKNOWN, and the result is the index in
the fitted class list. -/
def encodeStr (classes : List String) (v : Option String) : Option ℝ :=
  let s := v.getD "MISSING"
  let s2 := if classes.contains s then s else "UNKNOWN"
  some ((classes.indexOf s2 : ℕ) : ℝ)

/-- The inference branch of `encode_categorical_features`
(feature_engineering.py lines 87-99), taking the string columns of the frame
and the stored encoders: skip-listed columns and columns without a fitted
encoder are dropped, the rest are encoded with the stored vocabularies, and
the stored encoder state is returned untouched. -/
def encode_categorical_features (strCols : List (String × List (Option String)))
    (encoders : List (String × List String)) :
    DfN × List (String × List String) :=
  (strCols.filterMap (fun p =>
    if skip_columns.contains p.1 then none
    else match (List.find? (fun e => e.1 == p.1) encoders).map Prod.snd with
      | some classes => some (p.1, p.2.map (encodeStr classes))
      | none => none),
   encoders)

/-! ## feature_engineering.py: magnitude features -/

/-- Embeds feature_engineering.py line 137: the amount feature named amt_log is a
plain copy of the raw amount column (the adjacent comment announces a log
transform that the line does not perform). -/
def amt_log_feature (amt : List ℝ) : List ℝ := amt

/-- Embeds feature_engineering.py lines 166-171: the city population is capped at
its 99th percentile and then sent through numpy log1p. -/
noncomputable def city_pop_features (city_pop : List ℝ) : List ℝ × List ℝ :=
  let cap_value := percentile city_pop 99
  let capped := city_pop.map (fun x => min x cap_value)
  (capped, capped.map (fun x => Real.log (1 + x)))

/-! ## Helper lemmas: bounded deques -/

lemma lastN_eq_self {β : Type} (n : ℕ) (l : List β) (h : l.length ≤ n) :
    lastN n l = l := by
  simp [lastN, Nat.sub_eq_zero_of_le h]

lemma lastN_length {β : Type} (n : ℕ) (l : List β) :
    (lastN n l).length = min n l.length := by
  simp only [lastN, List.length_drop]
  omega

lemma appendBounded_eq_lastN {β : Type} (n : ℕ) (l : List β) (x : β)
    (h : l.length ≤ n) : appendBounded n l x = lastN n (l ++ [x]) := by
  simp only [appendBounded, lastN]
  split
  · rfl
  · rename_i h2
    have h3 : (l ++ [x]).length - n = 0 := by omega
    rw [h3, List.drop_zero]

lemma lastN_append_lastN {β : Type} (n : ℕ) (a b : List β) :
    lastN n (lastN n a ++ b) = lastN n (a ++ b) := by
  simp only [lastN, List.length_append, List.length_drop]
  rw [List.drop_append_eq_append_drop, List.drop_append_eq_append_drop,
    List.drop_drop]
  simp only [List.length_drop]
  congr 1
  · congr 1
    omega
  · congr 1
    omega

lemma foldl_appendBounded_eq_lastN {β : Type} (n : ℕ) (ps : List β) :
    ∀ l : List β, l.length ≤ n →
      ps.foldl (appendBounded n) l = lastN n (l ++ ps) := by
  induction ps with
  | nil => intro l h; simp [lastN_eq_self n l h]
  | cons x xs ih =>
    intro l h
    rw [List.foldl_cons, appendBounded_eq_lastN n l x h,
      ih (lastN n (l ++ [x])) (by rw [lastN_length]; omega),
      lastN_append_lastN]
    simp

/-! ## Helper lemmas: adaptive-detector record projections -/

@[simp] lemma calibrate_calibration_probs [LinearOrderedField α] [FloorRing α] (s : AdaptiveFraudDetector α) :
    (calibrate s).calibration_probs = s.calibration_probs := rfl

@[simp] lemma calibrate_total_processed [LinearOrderedField α] [FloorRing α] (s : AdaptiveFraudDetector α) :
    (calibrate s).total_processed = s.total_processed := rfl

@[simp] lemma calibrate_is_calibrated [LinearOrderedField α] [FloorRing α] (s : AdaptiveFraudDetector α) :
    (calibrate s).is_calibrated = true := rfl

@[simp] lemma calibrate_adaptive_threshold [LinearOrderedField α] [FloorRing α] (s : AdaptiveFraudDetector α) :
    (calibrate s).adaptive_threshold =
      percentile s.calibration_probs (s.target_fraud_rate * 100) := rfl

@[simp] lemma updateStats_is_calibrated [LinearOrderedField α] (s : AdaptiveFraudDetector α) (ps : List α) :
    (updateStats s ps).is_calibrated = s.is_calibrated := rfl

@[simp] lemma updateStats_adaptive_threshold [LinearOrderedField α] (s : AdaptiveFraudDetector α) (ps : List α) :
    (updateStats s ps).adaptive_threshold = s.adaptive_threshold := rfl

@[simp] lemma updateStats_total_processed [LinearOrderedField α] (s : AdaptiveFraudDetector α) (ps : List α) :
    (updateStats s ps).total_processed = s.total_processed + ps.length := rfl

lemma calibPhase_of_calibrated [LinearOrderedField α] [FloorRing α] (s : AdaptiveFraudDetector α) (ps : List α)
    (h : s.is_calibrated = true) : calibPhase s ps = s := by
  simp [calibPhase, h]

lemma calibPhase_total_processed [LinearOrderedField α] [FloorRing α] (s : AdaptiveFraudDetector α) (ps : List α) :
    (calibPhase s ps).total_processed = s.total_processed := by
  simp only [calibPhase]
  split
  · rfl
  · split <;> rfl

/-! ## Claim theorems: C6, C4, C8 -/

/-- Claim C6: an item processed by the adaptive detector is flagged anomalous
only if both its score is strictly below the active threshold and its
confidence is at least the caller-supplied min_confidence gate (default 0.3);
an item failing either condition is not flagged. -/
theorem should_flag_spec [LinearOrderedField α] (s : AdaptiveFraudDetector α) (p c mc : α) :
    (should_flag s p c mc = true ↔ p < s.adaptive_threshold ∧ mc ≤ c) ∧
    (¬ p < s.adaptive_threshold → should_flag s p c mc = false) ∧
    (c < mc → should_flag s p c mc = false) ∧
    (should_flag s p c (3 / 10) = true → p < s.adaptive_threshold ∧ (3 : α) / 10 ≤ c) := by
  refine ⟨by simp [should_flag], ?_, ?_, ?_⟩
  · intro h
    simp [should_flag, h]
  · intro h
    simp [should_flag, not_le.mpr h]
  · intro h
    simpa [should_flag] using h

/-- Witness for C6 at a concrete calibrated-threshold state. -/
theorem should_flag_spec_witness :
    should_flag (AdaptiveFraudDetector.init (1 : ℚ)) 0 1 (1 / 2) = true :=
  (should_flag_spec (AdaptiveFraudDetector.init (1 : ℚ)) 0 1 (1 / 2)).1.mpr
    ⟨by norm_num [AdaptiveFraudDetector.init], by norm_num⟩

/-- Claim C4: the adaptive confidence equals
clamp(abs(log10(score + 1e-20) - log10(threshold + 1e-20)) / 2, 0, 1):
it is 0 when score equals threshold, non-decreasing in the absolute log10
distance, and saturates at 1 once that distance is at least 2. -/
theorem calculate_confidence_spec (t : ℝ) :
    (∀ p, calculate_confidence t p =
      npClip (|Real.logb 10 (p + 1 / 10 ^ 20) - Real.logb 10 (t + 1 / 10 ^ 20)| / 2) 0 1) ∧
    calculate_confidence t t = 0 ∧
    (∀ p₁ p₂,
      |Real.logb 10 (p₁ + 1 / 10 ^ 20) - Real.logb 10 (t + 1 / 10 ^ 20)| ≤
        |Real.logb 10 (p₂ + 1 / 10 ^ 20) - Real.logb 10 (t + 1 / 10 ^ 20)| →
      calculate_confidence t p₁ ≤ calculate_confidence t p₂) ∧
    (∀ p, 2 ≤ |Real.logb 10 (p + 1 / 10 ^ 20) - Real.logb 10 (t + 1 / 10 ^ 20)| →
      calculate_confidence t p = 1) := by
  refine ⟨fun p => rfl, ?_, ?_, ?_⟩
  · simp [calculate_confidence, npClip]
  · intro p₁ p₂ h
    simp only [calculate_confidence, npClip]
    exact min_le_min le_rfl (max_le_max (by linarith) le_rfl)
  · intro p h
    simp only [calculate_confidence, npClip]
    have h1 : (1 : ℝ) ≤
        |Real.logb 10 (p + 1 / 10 ^ 20) - Real.logb 10 (t + 1 / 10 ^ 20)| / 2 := by
      linarith
    rw [min_eq_left (le_trans h1 (le_max_left _ _))]

/-- Witness for C4: zero confidence at the threshold, monotone step to a
farther score. -/
theorem calculate_confidence_spec_witness :
    calculate_confidence 1 1 = 0 ∧ calculate_confidence 1 1 ≤ calculate_confidence 1 5 := by
  refine ⟨(calculate_confidence_spec 1).2.1, (calculate_confidence_spec 1).2.2.1 1 5 ?_⟩
  simp

lemma maxList_all_eq [LinearOrder β] (p : β) (ps : List β)
    (h : ∀ x ∈ ps, x = p) : maxList p ps = p := by
  induction ps with
  | nil => rfl
  | cons x xs ih =>
    have hx : x = p := h x (by simp)
    simp only [maxList, List.foldl_cons] at *
    rw [hx, max_self]
    exact ih (fun y hy => h y (by simp [hy]))

lemma minList_all_eq [LinearOrder β] (p : β) (ps : List β)
    (h : ∀ x ∈ ps, x = p) : minList p ps = p := by
  induction ps with
  | nil => rfl
  | cons x xs ih =>
    have hx : x = p := h x (by simp)
    simp only [minList, List.foldl_cons] at *
    rw [hx, min_self]
    exact ih (fun y hy => h y (by simp [hy]))

/-- Counterexample to claim C8: on two identical scores the threshold search
does not return a single-candidate evaluation; the zero step size makes numpy
arange raise, so the call fails (none). -/
theorem optimal_threshold_identical_scores_cex :
    optimal_threshold [0, 1] [(3 : ℚ), 3] = none := by decide

/-- Amended claim C8: whenever all scores are identical, the grid step size
is zero and optimal_threshold fails (numpy arange raises ZeroDivisionError)
instead of evaluating any candidate. -/
theorem optimal_threshold_identical_scores [LinearOrderedField α] (truths : List ℕ) (p : α)
    (ps : List α) (h : ∀ x ∈ ps, x = p) :
    optimal_threshold truths (p :: ps) = none := by
  simp only [optimal_threshold]
  rw [maxList_all_eq p ps h, minList_all_eq p ps h]
  simp

/-- Witness for the amended C8 theorem. -/
theorem optimal_threshold_identical_scores_witness :
    optimal_threshold [1, 1] [(7 : ℚ), 7] = none :=
  optimal_threshold_identical_scores [1, 1] 7 [7] (by decide)

/-! ## Claim theorems: C2, C5 -/

/-- Claim C2: while uncalibrated, every processed score is appended to the
fixed-capacity calibration buffer (capacity 50 by default); once the buffer
reaches capacity, is_calibrated transitions from false to true and the
threshold becomes the (target_fraud_rate * 100)-th percentile of the buffered
scores; feeding exactly 50 scores to a fresh default detector yields the 15th
percentile of those 50 scores. -/
theorem adaptive_calibration_spec [LinearOrderedField α] [FloorRing α] (s : AdaptiveFraudDetector α) (ps : List α)
    (hcal : s.is_calibrated = false) (hsz : s.calibration_size = 50)
    (hlen : s.calibration_probs.length ≤ 50) :
    (calibPhase s ps).calibration_probs = lastN 50 (s.calibration_probs ++ ps) ∧
    (50 ≤ s.calibration_probs.length + ps.length →
      (calibPhase s ps).is_calibrated = true ∧
      (calibPhase s ps).adaptive_threshold =
        percentile (lastN 50 (s.calibration_probs ++ ps)) (s.target_fraud_rate * 100)) ∧
    (s.calibration_probs.length + ps.length < 50 →
      (calibPhase s ps).is_calibrated = false ∧
      (calibPhase s ps).adaptive_threshold = s.adaptive_threshold) ∧
    (s.calibration_probs = [] → ps.length = 50 → s.total_processed = 0 →
      s.target_fraud_rate = 3 / 20 →
      (predictStep s ps).is_calibrated = true ∧
      (predictStep s ps).adaptive_threshold = percentile ps 15) := by
  have hfold : ps.foldl (appendBounded 50) s.calibration_probs =
      lastN 50 (s.calibration_probs ++ ps) :=
    foldl_appendBounded_eq_lastN 50 ps s.calibration_probs hlen
  have hblen : (lastN 50 (s.calibration_probs ++ ps)).length =
      min 50 (s.calibration_probs.length + ps.length) := by
    rw [lastN_length]
    simp
  have hphase1 : 50 ≤ s.calibration_probs.length + ps.length →
      calibPhase s ps =
        calibrate { s with calibration_probs := lastN 50 (s.calibration_probs ++ ps) } := by
    intro hc
    simp only [calibPhase, hcal, Bool.false_eq_true, if_false, hfold, hsz]
    rw [if_pos (by rw [hblen]; omega)]
  have hphase2 : s.calibration_probs.length + ps.length < 50 →
      calibPhase s ps =
        { s with calibration_probs := lastN 50 (s.calibration_probs ++ ps) } := by
    intro hc
    simp only [calibPhase, hcal, Bool.false_eq_true, if_false, hfold, hsz]
    rw [if_neg (by rw [hblen]; omega)]
  refine ⟨?_, ?_, ?_, ?_⟩
  · rcases le_or_lt 50 (s.calibration_probs.length + ps.length) with hc | hc
    · rw [hphase1 hc]; rfl
    · rw [hphase2 hc]
  · intro hc
    rw [hphase1 hc]
    exact ⟨rfl, rfl⟩
  · intro hc
    rw [hphase2 hc]
    exact ⟨hcal, rfl⟩
  · intro he hps ht0 htg
    have hc : 50 ≤ s.calibration_probs.length + ps.length := by
      simp [he, hps]
    have hcp := hphase1 hc
    have htot : (updateStats (calibPhase s ps) ps).total_processed = 50 := by
      rw [updateStats_total_processed, calibPhase_total_processed, ht0, hps]
    have hnr : ¬ ((updateStats (calibPhase s ps) ps).total_processed % 100 = 0 ∧
        (updateStats (calibPhase s ps) ps).is_calibrated = true) := by
      rw [htot]
      simp
    have hps' : predictStep s ps = updateStats (calibPhase s ps) ps := by
      simp only [predictStep]
      rw [if_neg hnr]
    rw [hps', updateStats_is_calibrated, updateStats_adaptive_threshold, hcp]
    refine ⟨rfl, ?_⟩
    rw [calibrate_adaptive_threshold]
    have hlast : lastN 50 (s.calibration_probs ++ ps) = ps := by
      rw [he, List.nil_append]
      exact lastN_eq_self 50 ps (by omega)
    simp only [hlast, htg]
    norm_num

/-- Witness for C2: a fresh default detector fed exactly 50 scores. -/
theorem adaptive_calibration_spec_witness :
    (predictStep (AdaptiveFraudDetector.init (1 : ℚ))
      (List.replicate 50 (2 : ℚ))).is_calibrated = true ∧
    (predictStep (AdaptiveFraudDetector.init (1 : ℚ))
      (List.replicate 50 (2 : ℚ))).adaptive_threshold =
      percentile (List.replicate 50 (2 : ℚ)) 15 := by
  have h := adaptive_calibration_spec (AdaptiveFraudDetector.init (1 : ℚ))
    (List.replicate 50 (2 : ℚ)) rfl rfl (by simp [AdaptiveFraudDetector.init])
  exact h.2.2.2 rfl (by rw [List.length_replicate]) rfl rfl

/-- Claim C5: while calibrated, the recalibration check runs exactly when the
cumulative processed count after the update is a multiple of 100; it replaces
the threshold by 0.7 * old + 0.3 * (target percentile of rolling scores)
exactly when the rolling window holds at least 50 samples and the empirical
flag rate deviates from the target by more than 0.1, and leaves the threshold
unchanged in every other case. -/
theorem adaptive_recalibration_spec [LinearOrderedField α] [FloorRing α] (s : AdaptiveFraudDetector α) (ps : List α)
    (hcal : s.is_calibrated = true) :
    ((s.total_processed + ps.length) % 100 = 0 →
      predictStep s ps = recalibrate (updateStats s ps)) ∧
    ((s.total_processed + ps.length) % 100 ≠ 0 →
      predictStep s ps = updateStats s ps ∧
      (predictStep s ps).adaptive_threshold = s.adaptive_threshold) ∧
    (∀ t : AdaptiveFraudDetector α,
      (50 ≤ t.recent_probs.length →
        1 / 10 < |(t.recent_predictions.sum : α) / (t.recent_predictions.length : α) -
          t.target_fraud_rate| →
        (recalibrate t).adaptive_threshold =
          7 / 10 * t.adaptive_threshold +
            3 / 10 * percentile t.recent_probs (t.target_fraud_rate * 100)) ∧
      (t.recent_probs.length < 50 → recalibrate t = t) ∧
      (50 ≤ t.recent_probs.length →
        |(t.recent_predictions.sum : α) / (t.recent_predictions.length : α) -
          t.target_fraud_rate| ≤ 1 / 10 →
        recalibrate t = t)) := by
  have hstep : predictStep s ps =
      if (s.total_processed + ps.length) % 100 = 0 then recalibrate (updateStats s ps)
      else updateStats s ps := by
    simp only [predictStep, calibPhase_of_calibrated s ps hcal,
      updateStats_total_processed, updateStats_is_calibrated, hcal, and_true]
  refine ⟨?_, ?_, ?_⟩
  · intro h
    rw [hstep, if_pos h]
  · intro h
    exact ⟨by rw [hstep, if_neg h], by rw [hstep, if_neg h]; simp⟩
  · intro t
    refine ⟨?_, ?_, ?_⟩
    · intro h50 hdev
      simp only [recalibrate]
      rw [if_neg (not_lt.mpr h50), if_pos hdev]
    · intro h50
      simp only [recalibrate]
      rw [if_pos h50]
    · intro h50 hdev
      simp only [recalibrate]
      rw [if_neg (not_lt.mpr h50), if_neg (not_lt.mpr hdev)]

/-- Witness for C5: a calibrated state away from a 100-multiple and a state
with a short rolling window. -/
theorem adaptive_recalibration_spec_witness :
    predictStep (⟨50, 3 / 20, [1], true, 5, [], [], 30, 0⟩ : AdaptiveFraudDetector ℚ)
        [1, 2] =
      updateStats (⟨50, 3 / 20, [1], true, 5, [], [], 30, 0⟩ : AdaptiveFraudDetector ℚ)
        [1, 2] ∧
    recalibrate (⟨50, 3 / 20, [1], true, 5, [], [], 30, 0⟩ : AdaptiveFraudDetector ℚ) =
      (⟨50, 3 / 20, [1], true, 5, [], [], 30, 0⟩ : AdaptiveFraudDetector ℚ) := by
  have h := adaptive_recalibration_spec
    (⟨50, 3 / 20, [1], true, 5, [], [], 30, 0⟩ : AdaptiveFraudDetector ℚ) [1, 2] rfl
  exact ⟨(h.2.1 (by decide)).1, (h.2.2 _).2.1 (by decide)⟩

/-! ## Helper lemmas: the threshold-search fold -/

lemma aux_ratio_bounds {γ : Type} [LinearOrderedField γ] (a b : ℕ) :
    0 ≤ (if a + b = 0 then (0 : γ) else (a : γ) / ((a : γ) + (b : γ))) ∧
      (if a + b = 0 then (0 : γ) else (a : γ) / ((a : γ) + (b : γ))) ≤ 1 := by
  split_ifs with h
  · norm_num
  · have hb : (0 : γ) < (a : γ) + (b : γ) := by
      have h2 : 0 < a + b := Nat.pos_of_ne_zero h
      exact_mod_cast h2
    refine ⟨by positivity, ?_⟩
    rw [div_le_one hb]
    exact le_add_of_nonneg_right (by positivity)

lemma aux_F1_le_one {γ : Type} [LinearOrderedField γ] (P R : γ) (hP0 : 0 ≤ P)
    (hP1 : P ≤ 1) (hR0 : 0 ≤ R) (hR1 : R ≤ 1) :
    (if P + R = 0 then (0 : γ) else 2 * (P * R) / (P + R)) ≤ 1 := by
  split_ifs with h
  · norm_num
  · have hPR : 0 < P + R := lt_of_le_of_ne (by positivity) (Ne.symm h)
    rw [div_le_one hPR]
    nlinarith

lemma metrics_F1_le_one {γ : Type} [LinearOrderedField γ] (tp fp fn : ℕ) :
    (metrics (α := γ) tp fp fn).2.2 ≤ 1 := by
  simp only [metrics]
  exact aux_F1_le_one _ _ (aux_ratio_bounds tp fp).1 (aux_ratio_bounds tp fp).2
    (aux_ratio_bounds tp fn).1 (aux_ratio_bounds tp fn).2

lemma F1at_le_one [LinearOrderedField α] (truths : List ℕ) (probs : List α) (e : α) :
    F1at truths probs e ≤ 1 := by
  simp only [F1at]
  exact metrics_F1_le_one _ _ _

lemma metrics_F1_zero_of_tp_zero {γ : Type} [LinearOrderedField γ] (fp fn : ℕ) :
    (metrics (α := γ) 0 fp fn).2.2 = 0 := by
  simp only [metrics, Nat.cast_zero, zero_div, Nat.zero_add]
  split_ifs <;> simp

lemma check_predictions_tp_zero (preds truths : List ℕ)
    (h : ∀ t ∈ truths, t = 0) : (check_predictions preds truths).2.2 = 0 := by
  simp only [check_predictions]
  rw [List.length_eq_zero, List.filter_eq_nil]
  intro pt hpt
  have h2 : pt.2 = 0 := h pt.2 (List.of_mem_zip hpt).2
  simp [h2]

lemma F1at_of_truths_zero [LinearOrderedField α] (truths : List ℕ)
    (probs : List α) (h : ∀ t ∈ truths, t = 0) (e : α) :
    F1at truths probs e = 0 := by
  simp only [F1at]
  rw [check_predictions_tp_zero (predsAt probs e) truths h]
  exact metrics_F1_zero_of_tp_zero _ _

lemma foldl_threshStep_no_improve [LinearOrderedField α] (truths : List ℕ)
    (probs : List α) :
    ∀ (l : List α) (acc : α × α × α × α),
      (∀ e ∈ l, F1at truths probs e ≤ acc.2.1) →
      l.foldl (threshStep truths probs) acc = acc := by
  intro l
  induction l with
  | nil => intro acc _; rfl
  | cons e es ih =>
    intro acc h
    have hstep : threshStep truths probs acc e = acc := by
      simp only [threshStep]
      split
      · rfl
      · rw [if_neg]
        exact not_lt.mpr (by simpa only [F1at] using h e (by simp))
    rw [List.foldl_cons, hstep]
    exact ih acc (fun x hx => h x (by simp [hx]))

lemma foldl_threshStep_lt [LinearOrderedField α] (truths : List ℕ)
    (probs : List α) (G : α) :
    ∀ (l : List α) (acc : α × α × α × α), acc.2.1 < G →
      (∀ e ∈ l, F1at truths probs e < G) →
      (l.foldl (threshStep truths probs) acc).2.1 < G := by
  intro l
  induction l with
  | nil => intro acc h _; exact h
  | cons e es ih =>
    intro acc hacc h
    rw [List.foldl_cons]
    refine ih _ ?_ (fun x hx => h x (by simp [hx]))
    simp only [threshStep]
    split
    · exact hacc
    · split
      · simpa only [F1at] using h e (by simp)
      · exact hacc

lemma epsGrid_getD [LinearOrderedField α] (mn mx : α) (k : ℕ) (hk : k < 1000) :
    (epsGrid mn mx).getD k 0 = mn + (k : α) * ((mx - mn) / 1000) := by
  rw [epsGrid, List.getD_eq_getElem _ 0
    (by rw [List.length_map, List.length_range]; omega)]
  simp

lemma optimal_threshold_all_F1_zero [LinearOrderedField α] (truths : List ℕ)
    (p : α) (ps : List α) (hne : minList p ps < maxList p ps)
    (hz : ∀ e ∈ epsGrid (minList p ps) (maxList p ps), F1at truths (p :: ps) e = 0) :
    optimal_threshold truths (p :: ps) = some (0, 0, 0, 0) := by
  simp only [optimal_threshold]
  rw [if_neg (ne_of_gt hne)]
  rw [foldl_threshStep_no_improve truths (p :: ps) _ _
    (fun e he => le_of_eq (hz e he))]

/-! ## Claim theorems: C3, C10 -/

/-- Counterexample to claim C3: with all labels 0 and scores [5, 6], every
candidate ties at F1 = 0; the first candidate is 5, yet the function returns
the initialization threshold 0, which is not a grid candidate at all. -/
theorem optimal_threshold_first_argmax_cex :
    optimal_threshold [0, 0] [(5 : ℚ), 6] = some (0, 0, 0, 0) ∧
    (0 : ℚ) ∉ epsGrid (minList (5 : ℚ) [6]) (maxList (5 : ℚ) [6]) := by
  constructor
  · exact optimal_threshold_all_F1_zero [0, 0] 5 [6] (by decide)
      (fun e _ => F1at_of_truths_zero [0, 0] [5, 6] (by decide) e)
  · intro hmem
    have h5 : minList (5 : ℚ) [6] = 5 := by decide
    have h6 : maxList (5 : ℚ) [6] = 6 := by decide
    rw [h5, h6] at hmem
    simp only [epsGrid, List.mem_map] at hmem
    obtain ⟨k, hk, he⟩ := hmem
    have hge : (0 : ℚ) ≤ (k : ℚ) * ((6 - 5) / 1000) :=
      mul_nonneg (Nat.cast_nonneg k) (by norm_num)
    linarith

/-- Amended claim C3: optimal_threshold draws its candidates from the grid
mn + k * (mx - mn) / 1000 for k < 1000, classifies a sample anomalous iff its
score is strictly below the candidate, and — whenever some candidate attains
a positive maximal F1 — returns the first candidate achieving that maximum
(ties keep the earliest); when no candidate attains positive F1 it returns
the initialization threshold 0 (not necessarily a candidate). -/
theorem optimal_threshold_first_argmax [LinearOrderedField α]
    (truths : List ℕ) (p : α) (ps : List α) (i : ℕ) (G : α)
    (hi : i < 1000) (hG : 0 < G)
    (hne : minList p ps < maxList p ps)
    (hGi : F1at truths (p :: ps)
      ((epsGrid (minList p ps) (maxList p ps)).getD i 0) = G)
    (hbefore : ∀ j, j < i →
      F1at truths (p :: ps) ((epsGrid (minList p ps) (maxList p ps)).getD j 0) < G)
    (hmax : ∀ e ∈ epsGrid (minList p ps) (maxList p ps),
      F1at truths (p :: ps) e ≤ G) :
    optimal_threshold truths (p :: ps) =
      some ((epsGrid (minList p ps) (maxList p ps)).getD i 0, G,
        Pat truths (p :: ps) ((epsGrid (minList p ps) (maxList p ps)).getD i 0),
        Rat truths (p :: ps) ((epsGrid (minList p ps) (maxList p ps)).getD i 0)) := by
  set mn := minList p ps with hmn
  set mx := maxList p ps with hmx
  set grid := epsGrid mn mx with hgrid
  set e0 := grid.getD i 0 with he0
  have hglen : grid.length = 1000 := by
    rw [hgrid, epsGrid, List.length_map, List.length_range]
  have hilen : i < grid.length := by omega
  have hdrop : grid.drop i = e0 :: grid.drop (i + 1) := by
    rw [he0, List.getD_eq_getElem grid 0 hilen]
    exact List.drop_eq_getElem_cons hilen
  have hsplitg : grid = grid.take i ++ e0 :: grid.drop (i + 1) := by
    conv_lhs => rw [← List.take_append_drop i grid]
    rw [hdrop]
  have hbefore2 : ∀ e ∈ grid.take i, F1at truths (p :: ps) e < G := by
    intro e he
    obtain ⟨j, hj, hje⟩ := List.mem_iff_getElem.mp he
    have hjlen : j < grid.length := by
      rw [List.length_take] at hj
      omega
    have hji : j < i := by
      rw [List.length_take] at hj
      omega
    have hgd : grid.getD j 0 = e := by
      rw [List.getD_eq_getElem grid 0 hjlen, ← hje, List.getElem_take]
    rw [← hgd]
    exact hbefore j hji
  have hstep_e0 : ∀ acc : α × α × α × α, acc.2.1 < G →
      threshStep truths (p :: ps) acc e0 =
        (e0, G, Pat truths (p :: ps) e0, Rat truths (p :: ps) e0) := by
    intro acc hacc
    have hF : (metrics (α := α)
        (check_predictions (predsAt (p :: ps) e0) truths).2.2
        (check_predictions (predsAt (p :: ps) e0) truths).1
        (check_predictions (predsAt (p :: ps) e0) truths).2.1).2.2 = G := by
      simpa only [F1at] using hGi
    have hc : ¬((check_predictions (predsAt (p :: ps) e0) truths).2.2 +
        (check_predictions (predsAt (p :: ps) e0) truths).1 +
        (check_predictions (predsAt (p :: ps) e0) truths).2.1 = 0) := by
      intro h0
      have htp : (check_predictions (predsAt (p :: ps) e0) truths).2.2 = 0 := by omega
      rw [htp, metrics_F1_zero_of_tp_zero] at hF
      exact absurd hF.symm (ne_of_gt hG)
    simp only [threshStep]
    rw [if_neg hc, if_pos (by rw [hF]; exact hacc)]
    simp only [Pat, Rat]
    rw [hF]
  have hmain : optimal_threshold truths (p :: ps) =
      some ((grid.take i ++ e0 :: grid.drop (i + 1)).foldl
        (threshStep truths (p :: ps)) (0, 0, 0, 0)) := by
    simp only [optimal_threshold]
    rw [if_neg (ne_of_gt hne), ← hsplitg]
  rw [hmain, List.foldl_append, List.foldl_cons]
  have hpre : ((grid.take i).foldl (threshStep truths (p :: ps))
      (0, 0, 0, 0)).2.1 < G :=
    foldl_threshStep_lt truths (p :: ps) G (grid.take i) (0, 0, 0, 0) hG hbefore2
  rw [hstep_e0 _ hpre]
  rw [foldl_threshStep_no_improve truths (p :: ps) (grid.drop (i + 1)) _ ?_]
  intro e he
  exact hmax e (List.mem_of_mem_drop he)

/-- Witness for the amended C3 theorem: labels [1, 0] and scores [1, 2]; the
second grid candidate 1.001 is the first to reach the maximal F1 = 1. -/
theorem optimal_threshold_first_argmax_witness :
    optimal_threshold [1, 0] [(1 : ℚ), 2] =
      some ((epsGrid (minList (1 : ℚ) [2]) (maxList (1 : ℚ) [2])).getD 1 0, 1,
        Pat [1, 0] [(1 : ℚ), 2]
          ((epsGrid (minList (1 : ℚ) [2]) (maxList (1 : ℚ) [2])).getD 1 0),
        Rat [1, 0] [(1 : ℚ), 2]
          ((epsGrid (minList (1 : ℚ) [2]) (maxList (1 : ℚ) [2])).getD 1 0)) := by
  have h1 : minList (1 : ℚ) [2] = 1 := by decide
  have h2 : maxList (1 : ℚ) [2] = 2 := by decide
  refine optimal_threshold_first_argmax [1, 0] (1 : ℚ) [2] 1 1 (by norm_num)
    (by norm_num) (by decide) ?_ ?_ (fun e _ => F1at_le_one [1, 0] [(1 : ℚ), 2] e)
  · rw [h1, h2, epsGrid_getD 1 2 1 (by norm_num)]
    norm_num [F1at, predsAt, check_predictions, metrics, List.zip]
  · intro j hj
    have hj0 : j = 0 := by omega
    subst hj0
    rw [h1, h2, epsGrid_getD 1 2 0 (by norm_num)]
    norm_num [F1at, predsAt, check_predictions, metrics, List.zip]

/-- Counterexample to claim C10: all labels are 0 (so no candidate attains a
positive F1), but with all scores equal the function fails (none) instead of
returning threshold 0 with zero metrics. -/
theorem optimal_threshold_zero_F1_cex :
    (∀ t ∈ ([0, 0] : List ℕ), t = 0) ∧
    optimal_threshold [0, 0] [(3 : ℚ), 3] = none :=
  ⟨by decide, by decide⟩

/-- Amended claim C10: on any input with at least two distinct scores on
which no grid candidate attains an F1 strictly greater than 0, the function
returns threshold 0 with F1, precision and recall all 0 — and with threshold
0 fixed, the predict decision (score < 0) flags no row whose score is
non-negative. -/
theorem optimal_threshold_zero_F1_spec [LinearOrderedField α] (truths : List ℕ)
    (p : α) (ps : List α) (hne : minList p ps < maxList p ps)
    (hz : ∀ e ∈ epsGrid (minList p ps) (maxList p ps),
      F1at truths (p :: ps) e = 0) :
    optimal_threshold truths (p :: ps) = some (0, 0, 0, 0) ∧
    (∀ (k : ℕ) (probs : Fin k → ℝ) (r : Fin k), 0 ≤ probs r →
      ¬ decisions probs 0 r) := by
  refine ⟨optimal_threshold_all_F1_zero truths p ps hne hz, ?_⟩
  intro k probs r h hd
  exact absurd hd (not_lt.mpr h)

/-- Witness for the amended C10 theorem: all labels 0 on distinct scores. -/
theorem optimal_threshold_zero_F1_witness :
    optimal_threshold [0, 0, 0] [(1 : ℚ), 2, 4] = some (0, 0, 0, 0) :=
  (optimal_threshold_zero_F1_spec [0, 0, 0] (1 : ℚ) [2, 4] (by decide)
    (fun e _ => F1at_of_truths_zero [0, 0, 0] [(1 : ℚ), 2, 4] (by decide) e)).1

/-! ## Claim theorems: C1 -/

/-- A concrete training matrix with three samples and a zero-variance second
feature: rows (0, 5), (1, 5), (2, 5). -/
noncomputable def zeroVarX : Matrix (Fin 3) (Fin 2) ℝ :=
  Matrix.of fun i j => if j = 0 then (i : ℝ) else 5

/-- Counterexample to claim C1: the code adds no 1e-6 * I regularization, so
fitting on data with one zero-variance feature yields a singular covariance
matrix and the density call fails (scipy inv raises LinAlgError) instead of
inverting successfully with finite densities. -/
theorem multivariate_gaussian_no_regularization_cex :
    (∀ i, zeroVarX i 1 = 5) ∧
    multivariate_gaussian zeroVarX (estimate_gaussian zeroVarX).1
      (estimate_gaussian zeroVarX).2 = none := by
  have hdet : (estimate_gaussian zeroVarX).2.det = 0 := by
    simp [estimate_gaussian, zeroVarX, Matrix.det_fin_two, Fin.sum_univ_three]
  refine ⟨fun i => by simp [zeroVarX], ?_⟩
  simp only [multivariate_gaussian]
  rw [if_pos hdet]

/-- Amended claim C1: the density operation computes, for each row x,
p(x) = (2 pi)^(-n/2) * det(S)^(-1/2) * exp(-1/2 (x - mu)^T S^(-1) (x - mu))
with the RAW covariance matrix S (no 1e-6 * I term is added); when S is
singular the inversion fails instead of succeeding. -/
theorem multivariate_gaussian_density_formula {m n : ℕ}
    (X : Matrix (Fin m) (Fin n) ℝ) (mean_values : Fin n → ℝ)
    (S : Matrix (Fin n) (Fin n) ℝ) (hdet : 0 < S.det) :
    multivariate_gaussian X mean_values S =
      some (fun i =>
        (2 * Real.pi) ^ (-(n : ℝ) / 2) * S.det ^ (-(1 : ℝ) / 2) *
          Real.exp (-(1 / 2) * ∑ j, ∑ k,
            (X i j - mean_values j) * S⁻¹ j k * (X i k - mean_values k))) := by
  have h2pi : (0 : ℝ) < 2 * Real.pi := by positivity
  have hnorm : 1 / Real.sqrt ((2 * Real.pi) ^ n * S.det) =
      (2 * Real.pi) ^ (-(n : ℝ) / 2) * S.det ^ (-(1 : ℝ) / 2) := by
    rw [Real.sqrt_mul (by positivity) S.det]
    rw [Real.sqrt_eq_rpow, Real.sqrt_eq_rpow]
    rw [← Real.rpow_natCast (2 * Real.pi) n, ← Real.rpow_mul (le_of_lt h2pi)]
    rw [one_div, mul_inv]
    rw [← Real.rpow_neg (le_of_lt h2pi), ← Real.rpow_neg (le_of_lt hdet)]
    congr 1
    · congr 1
      ring
    · congr 1
      norm_num
  have hq : ∀ i, (∑ j, ((Matrix.of fun i' j' => X i' j' - mean_values j' :
        Matrix (Fin m) (Fin n) ℝ) * S⁻¹) i j *
        (Matrix.of fun i' j' => X i' j' - mean_values j' :
          Matrix (Fin m) (Fin n) ℝ) i j) =
      ∑ j, ∑ k, (X i j - mean_values j) * S⁻¹ j k * (X i k - mean_values k) := by
    intro i
    simp only [Matrix.mul_apply, Matrix.of_apply, Finset.sum_mul]
    rw [Finset.sum_comm]
  simp only [multivariate_gaussian]
  rw [if_neg (ne_of_gt hdet)]
  congr 1
  funext i
  rw [hnorm, hq i]

/-- Witness for the amended C1 theorem at a concrete nonsingular covariance. -/
theorem multivariate_gaussian_density_formula_witness :
    multivariate_gaussian !![(0 : ℝ)] ![0] !![(2 : ℝ)] =
      some (fun i =>
        (2 * Real.pi) ^ (-((1 : ℕ) : ℝ) / 2) * (!![(2 : ℝ)]).det ^ (-(1 : ℝ) / 2) *
          Real.exp (-(1 / 2) * ∑ j, ∑ k,
            (!![(0 : ℝ)] i j - (![0]) j) * (!![(2 : ℝ)])⁻¹ j k *
              (!![(0 : ℝ)] i k - (![0]) k))) := by
  exact multivariate_gaussian_density_formula !![(0 : ℝ)] ![0] !![(2 : ℝ)]
    (by rw [Matrix.det_fin_one]; norm_num)

/-! ## Claim theorems: C9 -/

/-- Claim C9 is a code bug: the source comment announces a log transform of
the amount, but line 137 copies the raw amount unchanged, so the amt_log
feature of the failing input [3] is [3] and differs from the capped log
transform the claim (and the city-population path, shown in the second
conjunct) prescribes. -/
theorem amt_log_not_transformed :
    amt_log_feature [(3 : ℝ)] = [3] ∧
    (city_pop_features [(3 : ℝ)]).2 =
      [Real.log (1 + min 3 (percentile [(3 : ℝ)] 99))] ∧
    [Real.log (1 + min 3 (percentile [(3 : ℝ)] 99))] ≠ [(3 : ℝ)] := by
  have hp : percentile [(3 : ℝ)] 99 = 3 := by
    simp [percentile, sortAsc, insertSorted]
  refine ⟨rfl, rfl, ?_⟩
  rw [hp, min_self]
  intro hcontra
  have h43 : Real.log (1 + 3) = 3 := by
    simpa using hcontra
  have hlt : Real.log (1 + 3) < 3 := by
    have h4 := Real.log_lt_sub_one_of_pos (x := 4) (by norm_num) (by norm_num)
    norm_num at h4 ⊢
    linarith
  exact absurd h43 (ne_of_lt hlt)

/-! ## Helper lemmas: column lookup and alignment (C7) -/

lemma find?_append_of_none {β : Type} {l₁ l₂ : List β} {pr : β → Bool}
    (h : l₁.find? pr = none) : (l₁ ++ l₂).find? pr = l₂.find? pr := by
  induction l₁ with
  | nil => rfl
  | cons a as ih =>
    rw [List.find?_cons] at h
    rw [List.cons_append, List.find?_cons]
    cases hp : pr a with
    | true => rw [hp] at h; exact absurd h (by simp)
    | false => rw [hp] at h; exact ih h

lemma find?_append_of_some {β : Type} {l₁ l₂ : List β} {pr : β → Bool} {b : β}
    (h : l₁.find? pr = some b) : (l₁ ++ l₂).find? pr = some b := by
  induction l₁ with
  | nil => simp at h
  | cons a as ih =>
    rw [List.find?_cons] at h
    rw [List.cons_append, List.find?_cons]
    cases hp : pr a with
    | true => rw [hp] at h; exact h
    | false => rw [hp] at h; exact ih h

lemma find?_filter_of {β : Type} (l : List β) (q pr : β → Bool)
    (h : ∀ a ∈ l, pr a = true → q a = true) :
    (l.filter q).find? pr = l.find? pr := by
  induction l with
  | nil => rfl
  | cons a as ih =>
    have ih2 := ih (fun x hx hpx => h x (by simp [hx]) hpx)
    cases hq : q a with
    | true =>
      rw [List.filter_cons_of_pos hq, List.find?_cons, List.find?_cons]
      cases hp : pr a with
      | true => rfl
      | false => exact ih2
    | false =>
      have hp : pr a = false := by
        cases hpa : pr a with
        | false => rfl
        | true => rw [h a (by simp) hpa] at hq; exact absurd hq (by simp)
      rw [List.filter_cons_of_neg (by simp [hq]), List.find?_cons, hp]
      exact ih2

lemma lookupCol_append_of_none {df₁ df₂ : DfN} {c : String}
    (h : lookupCol df₁ c = none) :
    lookupCol (df₁ ++ df₂) c = lookupCol df₂ c := by
  simp only [lookupCol] at h ⊢
  cases hf : List.find? (fun p => p.1 == c) df₁ with
  | none => rw [find?_append_of_none hf]
  | some x => rw [hf] at h; simp at h

lemma lookupCol_append_of_some {df₁ df₂ : DfN} {c : String}
    {col : List (Option ℝ)} (h : lookupCol df₁ c = some col) :
    lookupCol (df₁ ++ df₂) c = some col := by
  simp only [lookupCol] at h ⊢
  cases hf : List.find? (fun p => p.1 == c) df₁ with
  | none => rw [hf] at h; simp at h
  | some x =>
    rw [find?_append_of_some hf]
    rw [hf] at h
    exact h

lemma lookupCol_singleton_ne {c0 c : String} {vals : List (Option ℝ)}
    (h : c0 ≠ c) : lookupCol [(c0, vals)] c = none := by
  simp only [lookupCol, List.find?]
  rw [beq_eq_false_iff_ne.mpr h]
  rfl

/-- Dropping the extra columns never touches a training-column lookup. -/
lemma lookupCol_dropExtra (tc cols : List String) (dfx : DfN) (c : String)
    (hc : c ∈ tc) : lookupCol (dropExtra tc cols dfx) c = lookupCol dfx c := by
  simp only [dropExtra, lookupCol]
  rw [find?_filter_of]
  intro a _ hpa
  have ha : a.1 = c := by simpa using hpa
  rw [ha]
  simp only [Bool.not_eq_true']
  have hnotmem : c ∉ cols.filter (fun x => !tc.contains x && x != "is_fraud") := by
    intro hmem
    rw [List.mem_filter] at hmem
    have h2 := hmem.2
    simp only [Bool.and_eq_true, Bool.not_eq_true'] at h2
    have h3 : tc.contains c = true := List.elem_iff.mpr hc
    rw [h2.1] at h3
    exact Bool.noConfusion h3
  cases hcc : (cols.filter (fun x => !tc.contains x && x != "is_fraud")).contains c with
  | false => rfl
  | true => exact absurd (List.elem_iff.mp hcc) hnotmem

lemma lookupCol_map_const (cs : List String) (m : ℕ) (c : String) (hc : c ∈ cs) :
    lookupCol (cs.map (fun c' => (c', List.replicate m (some (0 : ℝ))))) c =
      some (List.replicate m (some 0)) := by
  induction cs with
  | nil => simp at hc
  | cons a as ih =>
    by_cases hac : a = c
    · subst hac
      simp only [List.map_cons, lookupCol]
      rw [List.find?_cons_of_pos _ (by simp)]
      rfl
    · simp only [List.map_cons, lookupCol]
      rw [List.find?_cons_of_neg _ (by simpa using hac)]
      have hc' : c ∈ as := by
        cases List.mem_cons.mp hc with
        | inl h2 => exact absurd h2.symm hac
        | inr h2 => exact h2
      simpa [lookupCol] using ih hc'

lemma lookupCol_fillMissing_missing (tc : List String) (df : DfN) (m : ℕ)
    (c : String) (hc : c ∈ tc) (hmiss : lookupCol df c = none) :
    lookupCol (fillMissing tc df m) c = some (List.replicate m (some 0)) := by
  simp only [fillMissing]
  rw [lookupCol_append_of_none hmiss]
  apply lookupCol_map_const
  rw [List.mem_filter]
  exact ⟨hc, by rw [hmiss]; rfl⟩

lemma lookupCol_fillMissing_some (tc : List String) (df : DfN) (m : ℕ)
    (c : String) (col : List (Option ℝ)) (h : lookupCol df c = some col) :
    lookupCol (fillMissing tc df m) c = some col := by
  simp only [fillMissing]
  exact lookupCol_append_of_some h

lemma mem_ofFn_training {n : ℕ} (d : FraudDetector n) (j : Fin n) :
    d.training_columns j ∈ List.ofFn d.training_columns :=
  (List.mem_ofFn _ _).mpr ⟨j, rfl⟩

lemma lookupCol_alignedFrame_missing {n : ℕ} (d : FraudDetector n) (df : DfN)
    (m : ℕ) (j : Fin n) (hmiss : lookupCol df (d.training_columns j) = none) :
    lookupCol (alignedFrame d df m) (d.training_columns j) =
      some (List.replicate m (some 0)) := by
  simp only [alignedFrame]
  rw [lookupCol_dropExtra _ _ _ _ (mem_ofFn_training d j)]
  exact lookupCol_fillMissing_missing _ df m _ (mem_ofFn_training d j) hmiss

lemma lookupCol_alignedFrame_some {n : ℕ} (d : FraudDetector n) (df : DfN)
    (m : ℕ) (j : Fin n) (col : List (Option ℝ))
    (h : lookupCol df (d.training_columns j) = some col) :
    lookupCol (alignedFrame d df m) (d.training_columns j) = some col := by
  simp only [alignedFrame]
  rw [lookupCol_dropExtra _ _ _ _ (mem_ofFn_training d j)]
  exact lookupCol_fillMissing_some _ df m _ col h

lemma processedColumn_replicate_zero (nm ns : ℝ) (m : ℕ) :
    processedColumn nm ns (List.replicate m (some 0)) =
      List.replicate m ((0 - nm) / ns) := by
  simp [processedColumn, fillNanWithMean, List.map_replicate]

lemma getD_eq_of_all_eq {β : Type} (l : List β) (c : β) (r : ℕ)
    (h : ∀ x ∈ l, x = c) : l.getD r c = c := by
  rw [List.getD_eq_getElem?_getD]
  cases hx : l[r]? with
  | none => rfl
  | some x =>
    have hm : x ∈ l := by
      obtain ⟨hlt, hEq⟩ := List.getElem?_eq_some.mp hx
      exact hEq ▸ List.getElem_mem hlt
    simp [h x hm]

lemma processedColumn_all_none (nm ns : ℝ) (col : List (Option ℝ))
    (h : ∀ v ∈ col, v = none) : ∀ x ∈ processedColumn nm ns col, x = 0 := by
  have hnm : nanmean col = none := by
    simp only [nanmean]
    rw [if_pos]
    rw [List.length_eq_zero, List.filterMap_eq_nil]
    intro a ha
    simpa using h a ha
  intro x hx
  simp only [processedColumn, fillNanWithMean, List.map_map, List.mem_map] at hx
  obtain ⟨v0, hv0, rfl⟩ := hx
  have hv0n : v0 = none := h v0 hv0
  subst hv0n
  simp [hnm]

lemma alignedMatrix_missing {n : ℕ} (d : FraudDetector n) (df : DfN) (m : ℕ)
    (j : Fin n) (hmiss : lookupCol df (d.training_columns j) = none)
    (r : Fin m) :
    alignedMatrix d df m r j =
      (0 - d.normalization_mean j) / d.normalization_std j := by
  simp only [alignedMatrix, Matrix.of_apply]
  rw [lookupCol_alignedFrame_missing d df m j hmiss]
  simp only [Option.getD_some]
  rw [processedColumn_replicate_zero]
  rw [List.getD_eq_getElem _ _ (by simp only [List.length_replicate]; exact r.isLt)]
  simp

lemma alignedMatrix_all_nan {n : ℕ} (d : FraudDetector n) (df : DfN) (m : ℕ)
    (j : Fin n) (col : List (Option ℝ))
    (hcol : lookupCol df (d.training_columns j) = some col)
    (h : ∀ v ∈ col, v = none) (r : Fin m) :
    alignedMatrix d df m r j = 0 := by
  simp only [alignedMatrix, Matrix.of_apply]
  rw [lookupCol_alignedFrame_some d df m j col hcol]
  simp only [Option.getD_some]
  exact getD_eq_of_all_eq _ _ _ (processedColumn_all_none _ _ col h)

lemma alignedMatrix_entry_some {n : ℕ} (d : FraudDetector n) (df : DfN) (m : ℕ)
    (j : Fin n) (col : List (Option ℝ)) (r : Fin m) (x : ℝ)
    (hcol : lookupCol df (d.training_columns j) = some col)
    (hx : col[(r : ℕ)]? = some (some x)) :
    alignedMatrix d df m r j =
      (x - d.normalization_mean j) / d.normalization_std j := by
  simp only [alignedMatrix, Matrix.of_apply]
  rw [lookupCol_alignedFrame_some d df m j col hcol]
  simp only [Option.getD_some, processedColumn, fillNanWithMean]
  rw [List.getD_eq_getElem?_getD, List.getElem?_map, List.getElem?_map,
    List.getElem?_map, hx]
  rfl

lemma lookupCol_alignedFrame_extra {n : ℕ} (d : FraudDetector n) (df : DfN)
    (m : ℕ) (c0 : String) (vals : List (Option ℝ))
    (hc0 : c0 ∉ List.ofFn d.training_columns) (j : Fin n) :
    lookupCol (alignedFrame d (df ++ [(c0, vals)]) m) (d.training_columns j) =
      lookupCol (alignedFrame d df m) (d.training_columns j) := by
  have hne : ∀ c', c' ∈ List.ofFn d.training_columns → c0 ≠ c' := by
    intro c' hc' he
    exact hc0 (he ▸ hc')
  have hfilter : (List.ofFn d.training_columns).filter
      (fun c' => (lookupCol (df ++ [(c0, vals)]) c').isNone) =
      (List.ofFn d.training_columns).filter (fun c' => (lookupCol df c').isNone) := by
    apply List.filter_congr
    intro c' hc'
    cases hldf : lookupCol df c' with
    | some col => rw [lookupCol_append_of_some hldf]
    | none =>
      rw [lookupCol_append_of_none hldf, lookupCol_singleton_ne (hne c' hc')]
  simp only [alignedFrame]
  rw [lookupCol_dropExtra _ _ _ _ (mem_ofFn_training d j),
    lookupCol_dropExtra _ _ _ _ (mem_ofFn_training d j)]
  simp only [fillMissing, hfilter]
  cases hldf : lookupCol df (d.training_columns j) with
  | some col =>
    rw [lookupCol_append_of_some (lookupCol_append_of_some hldf),
      lookupCol_append_of_some hldf]
  | none =>
    rw [lookupCol_append_of_none
        (by rw [lookupCol_append_of_none hldf,
          lookupCol_singleton_ne (hne _ (mem_ofFn_training d j))]),
      lookupCol_append_of_none hldf]

/-! ## Claim theorems: C7 -/

/-- Claim C7: predict on a trained detector is total for any row set (no
error for missing or extra columns): training-time columns absent from the
rows are filled with 0 before normalization, extra columns never seen at fit
time do not affect the output, normalization uses the stored mean/std, NaN
surviving the column-mean fill (an all-NaN column) is converted to 0 rather
than propagated, the per-row decision is score < threshold on the raw score,
and the stored encoders are used read-only (never refit).  Feature extraction
(extract_features with the stored encoders) is a pure function of the input
frame and encoder state; its numeric output frame is the df argument here. -/
theorem fraud_predict_spec {n : ℕ} (d : FraudDetector n) (df : DfN) (m : ℕ)
    (ht : d.is_trained = true) (hdet : d.covariance_matrix.det ≠ 0) :
    (∃ probs, FraudDetector.predict d df m = some probs) ∧
    (∀ j : Fin n, lookupCol df (d.training_columns j) = none →
      ∀ r : Fin m, alignedMatrix d df m r j =
        (0 - d.normalization_mean j) / d.normalization_std j) ∧
    (∀ (c0 : String) (vals : List (Option ℝ)),
      c0 ∉ List.ofFn d.training_columns →
      FraudDetector.predict d (df ++ [(c0, vals)]) m =
        FraudDetector.predict d df m) ∧
    (∀ (j : Fin n) (col : List (Option ℝ)),
      lookupCol df (d.training_columns j) = some col →
      (∀ v ∈ col, v = none) →
      ∀ r : Fin m, alignedMatrix d df m r j = 0) ∧
    (∀ (j : Fin n) (col : List (Option ℝ)) (r : Fin m) (x : ℝ),
      lookupCol df (d.training_columns j) = some col →
      col[(r : ℕ)]? = some (some x) →
      alignedMatrix d df m r j =
        (x - d.normalization_mean j) / d.normalization_std j) ∧
    (∀ probs, FraudDetector.predict d df m = some probs →
      ∀ r, decisions probs d.threshold r ↔ probs r < d.threshold) ∧
    (∀ (strCols : List (String × List (Option String)))
      (encoders : List (String × List String)),
      (encode_categorical_features strCols encoders).2 = encoders) := by
  have htot : ∃ probs, FraudDetector.predict d df m = some probs := by
    simp only [FraudDetector.predict, ht, Bool.true_eq_false, if_false,
      multivariate_gaussian]
    rw [if_neg hdet]
    exact ⟨_, rfl⟩
  refine ⟨htot, alignedMatrix_missing d df m, ?_, ?_, ?_, ?_, fun _ _ => rfl⟩
  · intro c0 vals hc0
    have hmat : alignedMatrix d (df ++ [(c0, vals)]) m = alignedMatrix d df m := by
      funext r j
      simp only [alignedMatrix, Matrix.of_apply]
      rw [lookupCol_alignedFrame_extra d df m c0 vals hc0 j]
    simp only [FraudDetector.predict, hmat]
  · intro j col hcol hall r
    exact alignedMatrix_all_nan d df m j col hcol hall r
  · intro j col r x hcol hx
    exact alignedMatrix_entry_some d df m j col r x hcol hx
  · intro probs _ r
    exact Iff.rfl

/-- A concrete one-feature trained detector for the C7 witness. -/
noncomputable def witnessDetector : FraudDetector 1 :=
  { training_columns := fun _ => "a"
    normalization_mean := fun _ => 0
    normalization_std := fun _ => 1
    mean_values := fun _ => 0
    covariance_matrix := !![(2 : ℝ)]
    threshold := 0
    is_trained := true }

/-- Witness for C7: the trained one-feature detector scores a one-row frame,
and the encoder state of an encoding call is returned untouched. -/
theorem fraud_predict_spec_witness :
    (∃ probs, FraudDetector.predict witnessDetector [("a", [some 0])] 1 =
      some probs) ∧
    (encode_categorical_features [] []).2 = [] := by
  have h := fraud_predict_spec witnessDetector [("a", [some 0])] 1 rfl
    (by rw [Matrix.det_fin_one]; norm_num [witnessDetector])
  exact ⟨h.1, h.2.2.2.2.2.2 [] []⟩

end TransactionCenter
